import Mathlib

/-!
Verification of `plugins/prometheus_collector.go` from lesha888/hystrix-go.

The Go file adapts hystrix metric events onto prometheus series. We embed:
  * a prometheus metric vector (`CounterVec`/`GaugeVec`/`HistogramVec`) as an
    association list from label value (the `command` label) to the child
    accumulator, with `WithLabelValues` get-or-create semantics;
  * the `PrometheusCollector` struct with its 11 series fields;
  * `NewPrometheusCollector`, `initCounters`, `Collector`, the nine
    `Increment*` methods, `UpdateTotalDuration`, `UpdateRunDuration`, `Reset`;
  * the registry as a list of registered fully-qualified series names, with
    `MustRegister` registering sequentially and panicking at the first
    name collision (the prometheus client contract).
Go `time.Duration` is modelled as `Int` nanoseconds and `Duration.Seconds()`
as exact division in `ℚ`; float accumulators are modelled in `ℚ`.
-/

set_option autoImplicit false

namespace Hystrix

/-- The nine counter series of the `PrometheusCollector` struct. -/
inductive CounterKind where
  | attempts
  | errors
  | successes
  | failures
  | rejects
  | shortCircuits
  | timeouts
  | fallbackSuccesses
  | fallbackFailures
  deriving DecidableEq, Repr

/-- Children of one metric vector: label value (`command`) to child accumulator. -/
abbrev Children (α : Type) := List (String × α)

/-- Look up the child accumulator for a label value. -/
def lookupChild {α : Type} : Children α → String → Option α
  | [], _ => none
  | (k, v) :: tl, n => if k = n then some v else lookupChild tl n

/-- Whether a child for this label value exists. -/
def hasChild {α : Type} : Children α → String → Bool
  | [], _ => false
  | (k, _) :: tl, n => if k = n then true else hasChild tl n

/-- Apply `f` to the child bound to label value `n`, leaving other children alone. -/
def mapChild {α : Type} (f : α → α) (n : String) : Children α → Children α
  | [] => []
  | (k, v) :: tl => (k, if k = n then f v else v) :: mapChild f n tl

/-- Model of `WithLabelValues(n)` followed by a child operation `f`: the child is created
with initial value `z` when absent (prometheus get-or-create), then `f` is
applied to it. -/
def applyChild {α : Type} (z : α) (f : α → α) (cs : Children α) (n : String) : Children α :=
  if hasChild cs n then mapChild f n cs else mapChild f n (cs ++ [(n, z)])

theorem lookupChild_mapChild_self {α : Type} (f : α → α) (n : String) (cs : Children α) :
    lookupChild (mapChild f n cs) n = (lookupChild cs n).map f := by
  induction cs with
  | nil => simp [lookupChild, mapChild]
  | cons p tl ih =>
    obtain ⟨k, v⟩ := p
    by_cases h : k = n <;> simp [lookupChild, mapChild, h, ih]

theorem lookupChild_mapChild_ne {α : Type} (f : α → α) (n m : String) (cs : Children α)
    (h : m ≠ n) : lookupChild (mapChild f n cs) m = lookupChild cs m := by
  induction cs with
  | nil => simp [lookupChild, mapChild]
  | cons p tl ih =>
    obtain ⟨k, v⟩ := p
    by_cases hk : k = m
    · subst hk
      simp [lookupChild, mapChild, h]
    · simp [lookupChild, mapChild, hk, ih]

theorem lookupChild_of_hasChild_false {α : Type} (cs : Children α) (n : String)
    (h : hasChild cs n = false) : lookupChild cs n = none := by
  induction cs with
  | nil => simp [lookupChild]
  | cons p tl ih =>
    obtain ⟨k, v⟩ := p
    by_cases hk : k = n
    · simp [hasChild, hk] at h
    · simp [hasChild, hk] at h
      simp [lookupChild, hk, ih h]

theorem lookupChild_isSome_of_hasChild {α : Type} (cs : Children α) (n : String)
    (h : hasChild cs n = true) : ∃ v, lookupChild cs n = some v := by
  induction cs with
  | nil => simp [hasChild] at h
  | cons p tl ih =>
    obtain ⟨k, v⟩ := p
    by_cases hk : k = n
    · exact ⟨v, by simp [lookupChild, hk]⟩
    · simp [hasChild, hk] at h
      obtain ⟨w, hw⟩ := ih h
      exact ⟨w, by simp [lookupChild, hk, hw]⟩

theorem mapChild_append {α : Type} (f : α → α) (n : String) (as bs : Children α) :
    mapChild f n (as ++ bs) = mapChild f n as ++ mapChild f n bs := by
  induction as with
  | nil => simp [mapChild]
  | cons p tl ih => obtain ⟨k, v⟩ := p; simp [mapChild, ih]

theorem lookupChild_append {α : Type} (as bs : Children α) (n : String) :
    lookupChild (as ++ bs) n = (lookupChild as n).elim (lookupChild bs n) some := by
  induction as with
  | nil => simp [lookupChild]
  | cons p tl ih =>
    obtain ⟨k, v⟩ := p
    by_cases h : k = n <;> simp [lookupChild, h, ih]

theorem lookupChild_applyChild_self {α : Type} (z : α) (f : α → α) (cs : Children α)
    (n : String) :
    lookupChild (applyChild z f cs n) n = some (f ((lookupChild cs n).getD z)) := by
  unfold applyChild
  by_cases h : hasChild cs n
  · rw [if_pos h, lookupChild_mapChild_self]
    obtain ⟨v, hv⟩ := lookupChild_isSome_of_hasChild cs n h
    simp [hv]
  · have h' : hasChild cs n = false := by simpa using h
    have hn := lookupChild_of_hasChild_false cs n h'
    rw [if_neg (by simp [h']), mapChild_append, lookupChild_append,
      lookupChild_mapChild_self, hn]
    simp [lookupChild, mapChild]

theorem lookupChild_applyChild_ne {α : Type} (z : α) (f : α → α) (cs : Children α)
    (n m : String) (h : m ≠ n) :
    lookupChild (applyChild z f cs n) m = lookupChild cs m := by
  unfold applyChild
  by_cases hc : hasChild cs n
  · rw [if_pos hc, lookupChild_mapChild_ne _ _ _ _ h]
  · rw [if_neg hc, mapChild_append, lookupChild_append,
      lookupChild_mapChild_ne _ _ _ _ h]
    cases hm : lookupChild cs m <;> simp [lookupChild, mapChild, h, Ne.symm h, hm]

/-- State of one prometheus histogram child: one (non-cumulative) count per
configured upper bound, plus the running sum and observation count. -/
structure HistChild where
  bucketCounts : List Nat
  sum : ℚ
  count : Nat
  deriving DecidableEq, Repr

/-- A freshly created histogram child: all buckets empty, sum 0, count 0. -/
def histZero (ubs : List ℚ) : HistChild :=
  ⟨List.replicate ubs.length 0, 0, 0⟩

/-- Index of the first bucket whose upper bound is `≥ v` (the bucket an
observation of `v` lands in); `none` when `v` exceeds every bound (the
implicit `+Inf` bucket). -/
def bucketIndex (ubs : List ℚ) (v : ℚ) : Option Nat :=
  match ubs with
  | [] => none
  | ub :: rest => if v ≤ ub then some 0 else (bucketIndex rest v).map (· + 1)

/-- Increment the entry at position `i` of a list of bucket counts. -/
def incrAt : List Nat → Nat → List Nat
  | [], _ => []
  | c :: cs, 0 => (c + 1) :: cs
  | c :: cs, i + 1 => c :: incrAt cs i

/-- Model of `Observe(v)` on a histogram child: bump the matching bucket, add `v` to the
sum, and add one to the count. -/
def HistChild.observe (h : HistChild) (ubs : List ℚ) (v : ℚ) : HistChild :=
  { bucketCounts :=
      match bucketIndex ubs v with
      | some i => incrAt h.bucketCounts i
      | none => h.bucketCounts
    sum := h.sum + v
    count := h.count + 1 }

/-- The `PrometheusCollector` struct of the Go source: nine counter vectors,
the total-duration gauge vector, the run-duration histogram vector (all keyed
by the `command` label), plus the bucket bounds the histogram was built with. -/
structure PrometheusCollector where
  attempts : Children ℚ
  errors : Children ℚ
  successes : Children ℚ
  failures : Children ℚ
  rejects : Children ℚ
  shortCircuits : Children ℚ
  timeouts : Children ℚ
  fallbackSuccesses : Children ℚ
  fallbackFailures : Children ℚ
  totalDuration : Children ℚ
  runDuration : Children HistChild
  buckets : List ℚ
  deriving DecidableEq, Repr

/-- Value of `prometheus.DefBuckets`: .005, .01, .025, .05, .1, .25, .5, 1, 2.5, 5, 10. -/
def DefBuckets : List ℚ :=
  [5/1000, 1/100, 1/40, 1/20, 1/10, 1/4, 1/2, 1, 5/2, 5, 10]

/-- The metric-vector state built by `NewPrometheusCollector`: eleven empty
vectors; `duration_buckets` is the Go `nil`-able slice argument and defaults
to `DefBuckets` when `none`, as in the source. -/
def newCollectorState (duration_buckets : Option (List ℚ)) : PrometheusCollector :=
  { attempts := []
    errors := []
    successes := []
    failures := []
    rejects := []
    shortCircuits := []
    timeouts := []
    fallbackSuccesses := []
    fallbackFailures := []
    totalDuration := []
    runDuration := []
    buckets := duration_buckets.getD DefBuckets }

/-- Read the counter vector of a given kind out of the struct. -/
def counterVec (st : PrometheusCollector) : CounterKind → Children ℚ
  | .attempts => st.attempts
  | .errors => st.errors
  | .successes => st.successes
  | .failures => st.failures
  | .rejects => st.rejects
  | .shortCircuits => st.shortCircuits
  | .timeouts => st.timeouts
  | .fallbackSuccesses => st.fallbackSuccesses
  | .fallbackFailures => st.fallbackFailures

/-- Model of `WithLabelValues(n).Add(x)` on a counter vector. -/
def counterAdd (cs : Children ℚ) (n : String) (x : ℚ) : Children ℚ :=
  applyChild 0 (· + x) cs n

/-- Model of `WithLabelValues(n).Inc()` on a counter vector. -/
def counterInc (cs : Children ℚ) (n : String) : Children ℚ :=
  counterAdd cs n 1

/-- Model of `WithLabelValues(n).Set(x)` on the gauge vector. -/
def gaugeSet (cs : Children ℚ) (n : String) (x : ℚ) : Children ℚ :=
  applyChild 0 (fun _ => x) cs n

/-- Model of `WithLabelValues(n).Observe(v)` on the histogram vector. -/
def histObserve (ubs : List ℚ) (cs : Children HistChild) (n : String) (v : ℚ) :
    Children HistChild :=
  applyChild (histZero ubs) (fun h => h.observe ubs v) cs n

/-- Embedding of `cmdCollector.initCounters`: `Add(0.0)` on each of the nine counters and
`Set(0.0)` on the gauge, all at the bound command name; the histogram is not
touched (lines 144-155 of the source). -/
def initCounters (commandName : String) (st : PrometheusCollector) : PrometheusCollector :=
  { st with
    attempts := counterAdd st.attempts commandName 0
    errors := counterAdd st.errors commandName 0
    successes := counterAdd st.successes commandName 0
    failures := counterAdd st.failures commandName 0
    rejects := counterAdd st.rejects commandName 0
    shortCircuits := counterAdd st.shortCircuits commandName 0
    timeouts := counterAdd st.timeouts commandName 0
    fallbackSuccesses := counterAdd st.fallbackSuccesses commandName 0
    fallbackFailures := counterAdd st.fallbackFailures commandName 0
    totalDuration := gaugeSet st.totalDuration commandName 0 }

/-- Embedding of `PrometheusCollector.Collector(name)`: builds the `cmdCollector` handle
(the handle carries only the bound command name, which event methods pass
back in) and runs `initCounters`; we model its effect on the shared metric
state. It performs no validation of `name`. -/
def Collector (name : String) (st : PrometheusCollector) : PrometheusCollector :=
  initCounters name st

/-- Embedding of `IncrementAttempts` through `IncrementFallbackFailures`, indexed by kind:
each does `WithLabelValues(commandName).Inc()` on its own counter vector. -/
def incCounter (K : CounterKind) (commandName : String) (st : PrometheusCollector) :
    PrometheusCollector :=
  match K with
  | .attempts => { st with attempts := counterInc st.attempts commandName }
  | .errors => { st with errors := counterInc st.errors commandName }
  | .successes => { st with successes := counterInc st.successes commandName }
  | .failures => { st with failures := counterInc st.failures commandName }
  | .rejects => { st with rejects := counterInc st.rejects commandName }
  | .shortCircuits => { st with shortCircuits := counterInc st.shortCircuits commandName }
  | .timeouts => { st with timeouts := counterInc st.timeouts commandName }
  | .fallbackSuccesses =>
      { st with fallbackSuccesses := counterInc st.fallbackSuccesses commandName }
  | .fallbackFailures =>
      { st with fallbackFailures := counterInc st.fallbackFailures commandName }

/-- Go `time.Duration` is an integer count of nanoseconds; `Seconds()` divides
by 1e9. We compute it exactly in `ℚ`. -/
def durationSeconds (d : Int) : ℚ :=
  (d : ℚ) / 1000000000

/-- Embedding of `UpdateTotalDuration(timeSinceStart)`: `Set` the gauge child to the
duration in seconds (line 213-216 of the source). -/
def UpdateTotalDuration (commandName : String) (timeSinceStart : Int)
    (st : PrometheusCollector) : PrometheusCollector :=
  { st with
    totalDuration := gaugeSet st.totalDuration commandName (durationSeconds timeSinceStart) }

/-- Embedding of `UpdateRunDuration(runDuration)`: `Observe` the duration in seconds on the
histogram child (line 218-221 of the source). -/
def UpdateRunDuration (commandName : String) (runDur : Int)
    (st : PrometheusCollector) : PrometheusCollector :=
  { st with
    runDuration := histObserve st.buckets st.runDuration commandName (durationSeconds runDur) }

/-- Embedding of `cmdCollector.Reset`: the body is empty (lines 223-226 of the source). -/
def Reset (st : PrometheusCollector) : PrometheusCollector :=
  st

/-- Value of counter `K` for label `c`, `none` when no child exists. -/
def counterValue (st : PrometheusCollector) (K : CounterKind) (c : String) : Option ℚ :=
  lookupChild (counterVec st K) c

/-- Value of the `total_duration_seconds` gauge for label `c`. -/
def gaugeValue (st : PrometheusCollector) (c : String) : Option ℚ :=
  lookupChild st.totalDuration c

/-- The `run_duration_seconds` histogram child for label `c`. -/
def histChild (st : PrometheusCollector) (c : String) : Option HistChild :=
  lookupChild st.runDuration c

/-- Namespace constant `PROMETHEUS_NAMESPACE` of the source. -/
def PROMETHEUS_NAMESPACE : String := "hystrix_go"

/-- Fully-qualified series name: namespace, underscore, series name. -/
def fq (name : String) : String :=
  PROMETHEUS_NAMESPACE ++ "_" ++ name

/-- The eleven series created in the `PrometheusCollector` struct literal of
`NewPrometheusCollector`, in field order, by fully-qualified name. -/
def createdSeriesNames : List String :=
  [fq "attempts", fq "errors", fq "successes", fq "failures", fq "rejects",
   fq "short_circuits", fq "timeouts", fq "fallback_successes",
   fq "fallback_failures", fq "total_duration_seconds", fq "run_duration_seconds"]

/-- The series actually passed to `MustRegister` by `NewPrometheusCollector`,
in argument order — transcribed from lines 110-121 (the `reg != nil` branch)
and lines 123-134 (the default-registry branch), which list the same ten
collectors: `hm.successes` appears in neither list. -/
def registeredSeriesNames : List String :=
  [fq "attempts", fq "errors", fq "failures", fq "rejects", fq "short_circuits",
   fq "timeouts", fq "fallback_successes", fq "fallback_failures",
   fq "total_duration_seconds", fq "run_duration_seconds"]

/-- Model of the external prometheus registry: the list of registered
fully-qualified series names, in registration order. -/
abbrev Registry := List String

/-- Model of `Registry.Register`: fails when a series of the same
fully-qualified name is already registered, otherwise appends it. -/
def registerSeries (reg : Registry) (n : String) : Except String Registry :=
  if n ∈ reg then Except.error n else Except.ok (reg ++ [n])

/-- Model of `MustRegister`: register the collectors one by one, panicking at
the first failure (second component `some name` = panic on `name`); series
registered before the failure stay registered. -/
def mustRegister (reg : Registry) : List String → Registry × Option String
  | [] => (reg, none)
  | n :: ns =>
    match registerSeries reg n with
    | Except.ok reg2 => mustRegister reg2 ns
    | Except.error e => (reg, some e)

/-- Embedding of `NewPrometheusCollector(reg, duration_buckets)`: builds the eleven metric
vectors and calls `MustRegister` with `registeredSeriesNames` on the target
registry (the supplied one, or the process default — both branches pass the
same ten collectors). Result: (registry after the call, panic name if any),
together with the returned `PrometheusCollector` value. -/
def NewPrometheusCollector (reg : Registry) (duration_buckets : Option (List ℚ)) :
    (Registry × Option String) × PrometheusCollector :=
  (mustRegister reg registeredSeriesNames, newCollectorState duration_buckets)

/-! Structural lemmas about the embedded methods. -/

theorem counterVec_initCounters (c : String) (st : PrometheusCollector) (K : CounterKind) :
    counterVec (initCounters c st) K = counterAdd (counterVec st K) c 0 := by
  cases K <;> rfl

theorem totalDuration_initCounters (c : String) (st : PrometheusCollector) :
    (initCounters c st).totalDuration = gaugeSet st.totalDuration c 0 := rfl

theorem runDuration_initCounters (c : String) (st : PrometheusCollector) :
    (initCounters c st).runDuration = st.runDuration := rfl

theorem buckets_initCounters (c : String) (st : PrometheusCollector) :
    (initCounters c st).buckets = st.buckets := rfl

theorem counterVec_incCounter (K K' : CounterKind) (c : String) (st : PrometheusCollector) :
    counterVec (incCounter K' c st) K =
      if K = K' then counterInc (counterVec st K) c else counterVec st K := by
  cases K <;> cases K' <;> simp [incCounter, counterVec]

theorem totalDuration_incCounter (K : CounterKind) (c : String) (st : PrometheusCollector) :
    (incCounter K c st).totalDuration = st.totalDuration := by
  cases K <;> rfl

theorem runDuration_incCounter (K : CounterKind) (c : String) (st : PrometheusCollector) :
    (incCounter K c st).runDuration = st.runDuration := by
  cases K <;> rfl

theorem counterVec_updateTotal (c : String) (d : Int) (st : PrometheusCollector)
    (K : CounterKind) :
    counterVec (UpdateTotalDuration c d st) K = counterVec st K := by
  cases K <;> rfl

theorem counterVec_updateRun (c : String) (d : Int) (st : PrometheusCollector)
    (K : CounterKind) :
    counterVec (UpdateRunDuration c d st) K = counterVec st K := by
  cases K <;> rfl

/-! Event traces: everything a caller can do to the shared metric state. -/

/-- One call into the adapter: a `Collector` factory call, one of the nine
`Increment*` methods, `UpdateTotalDuration`, `UpdateRunDuration`, or `Reset`,
each with the command name the issuing recorder is bound to. -/
inductive MEvent where
  | collector (name : String)
  | inc (K : CounterKind) (name : String)
  | setTotal (name : String) (d : Int)
  | observeRun (name : String) (d : Int)
  | reset
  deriving DecidableEq, Repr

/-- Effect of one call on the shared metric state. -/
def step : MEvent → PrometheusCollector → PrometheusCollector
  | .collector n, st => Collector n st
  | .inc K n, st => incCounter K n st
  | .setTotal n d, st => UpdateTotalDuration n d st
  | .observeRun n d, st => UpdateRunDuration n d st
  | .reset, st => Reset st

/-- Run a trace of calls left to right. -/
def run (st : PrometheusCollector) : List MEvent → PrometheusCollector
  | [] => st
  | e :: es => run (step e st) es

/-- Number of `Increment` calls for counter kind `K` and command name `c` in a
trace. -/
def countIncs (K : CounterKind) (c : String) (tr : List MEvent) : Nat :=
  tr.countP (fun e => decide (e = MEvent.inc K c))

theorem counterValue_step (e : MEvent) (st : PrometheusCollector) (K : CounterKind)
    (c : String) (v : ℚ) (h : counterValue st K c = some v) :
    counterValue (step e st) K c =
      some (v + if e = MEvent.inc K c then 1 else 0) := by
  cases e with
  | collector n =>
    by_cases hn : c = n
    · subst hn
      simp only [step, Collector, counterValue, counterVec_initCounters, counterAdd]
      rw [lookupChild_applyChild_self]
      simp [counterValue] at h
      simp [h]
    · simp only [step, Collector, counterValue, counterVec_initCounters, counterAdd]
      rw [lookupChild_applyChild_ne _ _ _ _ _ hn]
      simp [counterValue] at h
      simp [h]
  | inc K' c' =>
    simp only [step, counterValue]
    rw [counterVec_incCounter]
    by_cases hK : K = K'
    · rw [if_pos hK]
      subst hK
      by_cases hc : c = c'
      · subst hc
        rw [counterInc, counterAdd, lookupChild_applyChild_self]
        simp [counterValue] at h
        simp [h]
      · rw [counterInc, counterAdd, lookupChild_applyChild_ne _ _ _ _ _ hc]
        simp [counterValue] at h
        simp [h, hc, Ne.symm hc]
    · rw [if_neg hK]
      simp [counterValue] at h
      simp [h, Ne.symm hK]
  | setTotal n d =>
    simp only [step, counterValue, counterVec_updateTotal]
    simp [counterValue] at h
    simp [h]
  | observeRun n d =>
    simp only [step, counterValue, counterVec_updateRun]
    simp [counterValue] at h
    simp [h]
  | reset =>
    simp [step, Reset, h]

theorem counterValue_run (tr : List MEvent) (st : PrometheusCollector) (K : CounterKind)
    (c : String) (v : ℚ) (h : counterValue st K c = some v) :
    counterValue (run st tr) K c = some (v + (countIncs K c tr : ℚ)) := by
  induction tr generalizing st v with
  | nil => simpa [run, countIncs] using h
  | cons e tr ih =>
    have hs := counterValue_step e st K c v h
    have hr := ih (step e st) _ hs
    rw [run, hr]
    congr 1
    by_cases he : e = MEvent.inc K c
    · subst he
      simp [countIncs, List.countP_cons]
      ring
    · simp [countIncs, List.countP_cons, he]

/-- The state of counter `K` for command `c` right after a `Collector c` call:
present, holding the previous value when one existed and `0` otherwise. -/
theorem counterValue_Collector_self (c : String) (st : PrometheusCollector)
    (K : CounterKind) :
    counterValue (Collector c st) K c = some ((counterValue st K c).getD 0) := by
  simp only [Collector, counterValue, counterVec_initCounters, counterAdd]
  rw [lookupChild_applyChild_self]
  simp

theorem counterValue_Collector_ne (c c' : String) (st : PrometheusCollector)
    (K : CounterKind) (h : c' ≠ c) :
    counterValue (Collector c st) K c' = counterValue st K c' := by
  simp only [Collector, counterValue, counterVec_initCounters, counterAdd]
  rw [lookupChild_applyChild_ne _ _ _ _ _ h]

theorem gaugeValue_Collector_self (c : String) (st : PrometheusCollector) :
    gaugeValue (Collector c st) c = some 0 := by
  simp only [Collector, gaugeValue, totalDuration_initCounters, gaugeSet]
  rw [lookupChild_applyChild_self]

theorem gaugeValue_Collector_ne (c c' : String) (st : PrometheusCollector)
    (h : c' ≠ c) : gaugeValue (Collector c st) c' = gaugeValue st c' := by
  simp only [Collector, gaugeValue, totalDuration_initCounters, gaugeSet]
  rw [lookupChild_applyChild_ne _ _ _ _ _ h]

theorem histChild_Collector (c c' : String) (st : PrometheusCollector) :
    histChild (Collector c st) c' = histChild st c' := rfl

theorem gaugeValue_updateTotal_self (c : String) (d : Int) (st : PrometheusCollector) :
    gaugeValue (UpdateTotalDuration c d st) c = some (durationSeconds d) := by
  simp only [UpdateTotalDuration, gaugeValue, gaugeSet]
  rw [lookupChild_applyChild_self]

theorem gaugeValue_updateTotal_ne (c c' : String) (d : Int) (st : PrometheusCollector)
    (h : c' ≠ c) :
    gaugeValue (UpdateTotalDuration c d st) c' = gaugeValue st c' := by
  simp only [UpdateTotalDuration, gaugeValue, gaugeSet]
  rw [lookupChild_applyChild_ne _ _ _ _ _ h]

/-! Histogram observation lemmas. -/

/-- Observation count of the histogram for command `c` (0 when no child). -/
def histCount (st : PrometheusCollector) (c : String) : Nat :=
  ((histChild st c).map HistChild.count).getD 0

/-- Observation sum of the histogram for command `c` (0 when no child). -/
def histSum (st : PrometheusCollector) (c : String) : ℚ :=
  ((histChild st c).map HistChild.sum).getD 0

/-- Count in bucket `i` of the histogram for command `c` (0 when no child or
out of range). -/
def bucketCountAt (st : PrometheusCollector) (c : String) (i : Nat) : Nat :=
  ((histChild st c).map (fun h => h.bucketCounts.getD i 0)).getD 0

/-- The histogram children all have one counter per configured bucket. -/
def histWF (st : PrometheusCollector) : Prop :=
  ∀ p ∈ st.runDuration, (Prod.snd p).bucketCounts.length = st.buckets.length

instance (st : PrometheusCollector) : Decidable (histWF st) :=
  List.decidableBAll _ st.runDuration

theorem incrAt_length (l : List Nat) (i : Nat) : (incrAt l i).length = l.length := by
  induction l generalizing i with
  | nil => rfl
  | cons c cs ih => cases i <;> simp [incrAt, ih]

theorem getD_incrAt (l : List Nat) (i j : Nat) (hi : i < l.length) :
    (incrAt l i).getD j 0 = l.getD j 0 + if i = j then 1 else 0 := by
  induction l generalizing i j with
  | nil => simp at hi
  | cons c cs ih =>
    cases i with
    | zero =>
      cases j with
      | zero => simp [incrAt]
      | succ j => simp [incrAt, List.getD]
    | succ i =>
      cases j with
      | zero => simp [incrAt, List.getD]
      | succ j =>
        simp only [incrAt, List.getD_cons_succ]
        rw [ih i j (by simpa using hi)]
        simp [Nat.succ_inj]

theorem getD_replicate_zero (n j : Nat) : (List.replicate n (0 : Nat)).getD j 0 = 0 := by
  induction n generalizing j with
  | zero => simp [List.getD]
  | succ n ih => cases j <;> simp [List.replicate, List.getD, ih]

theorem bucketIndex_lt (ubs : List ℚ) (v : ℚ) (i : Nat) (h : bucketIndex ubs v = some i) :
    i < ubs.length := by
  induction ubs generalizing i with
  | nil => simp [bucketIndex] at h
  | cons ub rest ih =>
    by_cases hv : v ≤ ub
    · simp [bucketIndex, hv] at h
      simp only [List.length_cons]
      omega
    · simp [bucketIndex, hv] at h
      obtain ⟨j, hj, rfl⟩ := h
      have := ih j hj
      simp
      omega

theorem observe_bucketCounts_length (h : HistChild) (ubs : List ℚ) (v : ℚ) :
    (h.observe ubs v).bucketCounts.length = h.bucketCounts.length := by
  unfold HistChild.observe
  cases hb : bucketIndex ubs v <;> simp [incrAt_length]

theorem lookupChild_mem {α : Type} (cs : Children α) (n : String) (v : α)
    (h : lookupChild cs n = some v) : (n, v) ∈ cs := by
  induction cs with
  | nil => simp [lookupChild] at h
  | cons p tl ih =>
    obtain ⟨k, w⟩ := p
    by_cases hk : k = n
    · subst hk
      simp [lookupChild] at h
      simp [h]
    · simp [lookupChild, hk] at h
      simp [ih h]

theorem mem_mapChild {α : Type} (f : α → α) (n : String) (cs : Children α)
    (p : String × α) (hp : p ∈ mapChild f n cs) :
    ∃ q ∈ cs, p.1 = q.1 ∧ (p.2 = q.2 ∨ p.2 = f q.2) := by
  induction cs with
  | nil => simp [mapChild] at hp
  | cons q tl ih =>
    obtain ⟨k, v⟩ := q
    simp only [mapChild, List.mem_cons] at hp
    rcases hp with hp | hp
    · subst hp
      by_cases hk : k = n
      · exact ⟨(k, v), by simp, rfl, Or.inr (by simp [hk])⟩
      · exact ⟨(k, v), by simp, rfl, Or.inl (by simp [hk])⟩
    · obtain ⟨q, hq, h1, h2⟩ := ih hp
      exact ⟨q, by simp [hq], h1, h2⟩

theorem histWF_updateRun (c : String) (d : Int) (st : PrometheusCollector)
    (h : histWF st) : histWF (UpdateRunDuration c d st) := by
  intro p hp
  have hb : (UpdateRunDuration c d st).buckets = st.buckets := rfl
  rw [hb]
  have hr : (UpdateRunDuration c d st).runDuration =
      applyChild (histZero st.buckets) (fun h => h.observe st.buckets (durationSeconds d))
        st.runDuration c := rfl
  rw [hr] at hp
  unfold applyChild at hp
  by_cases hc : hasChild st.runDuration c
  · rw [if_pos hc] at hp
    obtain ⟨q, hq, _, h2⟩ := mem_mapChild _ _ _ _ hp
    rcases h2 with h2 | h2
    · rw [h2]; exact h q hq
    · rw [h2, observe_bucketCounts_length]; exact h q hq
  · rw [if_neg hc] at hp
    obtain ⟨q, hq, _, h2⟩ := mem_mapChild _ _ _ _ hp
    rcases List.mem_append.1 hq with hq' | hq'
    · rcases h2 with h2 | h2
      · rw [h2]; exact h q hq'
      · rw [h2, observe_bucketCounts_length]; exact h q hq'
    · simp at hq'
      rcases h2 with h2 | h2
      · rw [h2, hq']
        simp [histZero]
      · rw [h2, observe_bucketCounts_length, hq']
        simp [histZero]

theorem histChild_updateRun_self (c : String) (d : Int) (st : PrometheusCollector) :
    histChild (UpdateRunDuration c d st) c =
      some (((histChild st c).getD (histZero st.buckets)).observe st.buckets
        (durationSeconds d)) := by
  simp only [UpdateRunDuration, histChild, histObserve]
  rw [lookupChild_applyChild_self]

theorem histChild_updateRun_ne (c c' : String) (d : Int) (st : PrometheusCollector)
    (h : c' ≠ c) : histChild (UpdateRunDuration c d st) c' = histChild st c' := by
  simp only [UpdateRunDuration, histChild, histObserve]
  rw [lookupChild_applyChild_ne _ _ _ _ _ h]

/-- Runs successive `UpdateRunDuration` calls for command `c`. -/
def runObserves (c : String) (ds : List Int) (st : PrometheusCollector) :
    PrometheusCollector :=
  ds.foldl (fun s d => UpdateRunDuration c d s) st

theorem histStep (st : PrometheusCollector) (c : String) (d : Int) (hWF : histWF st) :
    histCount (UpdateRunDuration c d st) c = histCount st c + 1 ∧
    histSum (UpdateRunDuration c d st) c = histSum st c + durationSeconds d ∧
    ∀ i, bucketCountAt (UpdateRunDuration c d st) c i =
      bucketCountAt st c i +
        if bucketIndex st.buckets (durationSeconds d) = some i then 1 else 0 := by
  have hself := histChild_updateRun_self c d st
  cases hc : histChild st c with
  | none =>
    rw [hc] at hself
    refine ⟨?_, ?_, ?_⟩
    · simp [histCount, hself, hc, HistChild.observe, histZero]
    · simp [histSum, hself, hc, HistChild.observe, histZero]
    · intro i
      have hchild : histChild (UpdateRunDuration c d st) c =
          some ((histZero st.buckets).observe st.buckets (durationSeconds d)) := by
        simpa using hself
      cases hb : bucketIndex st.buckets (durationSeconds d) with
      | none =>
        simp [bucketCountAt, hchild, hc, HistChild.observe, hb, histZero,
          getD_replicate_zero]
      | some j =>
        have hj := bucketIndex_lt _ _ _ hb
        have key := getD_incrAt (List.replicate st.buckets.length 0) j i (by simpa using hj)
        have keyrep := getD_replicate_zero st.buckets.length i
        simp only [List.getD_eq_getElem?_getD] at key keyrep
        simp [bucketCountAt, hchild, hc, HistChild.observe, hb, histZero, key, keyrep]
  | some h0 =>
    rw [hc] at hself
    have hlen : h0.bucketCounts.length = st.buckets.length :=
      hWF (c, h0) (lookupChild_mem _ _ _ hc)
    refine ⟨?_, ?_, ?_⟩
    · simp [histCount, hself, hc, HistChild.observe]
    · simp [histSum, hself, hc, HistChild.observe]
    · intro i
      have hchild : histChild (UpdateRunDuration c d st) c =
          some (h0.observe st.buckets (durationSeconds d)) := by
        simpa using hself
      cases hb : bucketIndex st.buckets (durationSeconds d) with
      | none => simp [bucketCountAt, hchild, hc, HistChild.observe, hb]
      | some j =>
        have hj := bucketIndex_lt _ _ _ hb
        have key := getD_incrAt h0.bucketCounts j i (by rw [hlen]; exact hj)
        simp only [List.getD_eq_getElem?_getD] at key
        simp [bucketCountAt, hchild, hc, HistChild.observe, hb, key]

theorem runObserves_cons (c : String) (d : Int) (ds : List Int) (st : PrometheusCollector) :
    runObserves c (d :: ds) st = runObserves c ds (UpdateRunDuration c d st) := rfl

theorem runObserves_spec (c : String) (ds : List Int) (st : PrometheusCollector)
    (hWF : histWF st) :
    histCount (runObserves c ds st) c = histCount st c + ds.length ∧
    histSum (runObserves c ds st) c = histSum st c + (ds.map durationSeconds).sum ∧
    ∀ i, bucketCountAt (runObserves c ds st) c i =
      bucketCountAt st c i +
        ds.countP (fun d => decide (bucketIndex st.buckets (durationSeconds d) = some i)) := by
  induction ds generalizing st with
  | nil => simp [runObserves]
  | cons d ds ih =>
    have hWF1 := histWF_updateRun c d st hWF
    have hstep := histStep st c d hWF
    have hrec := ih (UpdateRunDuration c d st) hWF1
    have hbk : (UpdateRunDuration c d st).buckets = st.buckets := rfl
    rw [hbk] at hrec
    rw [runObserves_cons]
    refine ⟨?_, ?_, ?_⟩
    · rw [hrec.1, hstep.1]
      simp only [List.length_cons]
      omega
    · rw [hrec.2.1, hstep.2.1]
      simp only [List.map_cons, List.sum_cons]
      ring
    · intro i
      rw [hrec.2.2 i, hstep.2.2 i]
      by_cases hcase : bucketIndex st.buckets (durationSeconds d) = some i
      · simp only [List.countP_cons, hcase, if_pos, decide_true_eq_true]
        omega
      · simp only [List.countP_cons, hcase, if_neg]
        simp [hcase]

/-! Small helper facts used by several claims. -/

theorem counterValue_fresh (bs : Option (List ℚ)) (K : CounterKind) (c : String) :
    counterValue (newCollectorState bs) K c = none := by
  cases K <;> rfl

theorem counterValue_Collector_fresh (bs : Option (List ℚ)) (c : String) (K : CounterKind) :
    counterValue (Collector c (newCollectorState bs)) K c = some 0 := by
  rw [counterValue_Collector_self, counterValue_fresh]
  rfl

theorem counterValue_updateTotal (c c' : String) (d : Int) (st : PrometheusCollector)
    (K : CounterKind) :
    counterValue (UpdateTotalDuration c d st) K c' = counterValue st K c' := by
  simp [counterValue, counterVec_updateTotal]

theorem counterValue_updateRun (c c' : String) (d : Int) (st : PrometheusCollector)
    (K : CounterKind) :
    counterValue (UpdateRunDuration c d st) K c' = counterValue st K c' := by
  simp [counterValue, counterVec_updateRun]

/-! Registration order lemmas for the registry model. -/

theorem mustRegister_mono (ns : List String) (r : Registry) (n : String) (h : n ∈ r) :
    n ∈ (mustRegister r ns).1 := by
  induction ns generalizing r with
  | nil => simpa [mustRegister] using h
  | cons m ms ih =>
    by_cases hm : m ∈ r
    · simpa [mustRegister, registerSeries, hm] using h
    · simp only [mustRegister, registerSeries, if_neg hm]
      exact ih (r ++ [m]) (by simp [h])

theorem mustRegister_panics (ns : List String) (r : Registry)
    (h : ∃ n ∈ ns, n ∈ r) : (mustRegister r ns).2 ≠ none := by
  induction ns generalizing r with
  | nil => simp at h
  | cons m ms ih =>
    by_cases hm : m ∈ r
    · simp [mustRegister, registerSeries, hm]
    · simp only [mustRegister, registerSeries, if_neg hm]
      obtain ⟨n, hn, hnr⟩ := h
      rcases List.mem_cons.1 hn with rfl | hn'
      · exact absurd hnr hm
      · exact ih (r ++ [m]) ⟨n, hn', by simp [hnr]⟩

theorem mustRegister_registers_head (m : String) (ms : List String) (r : Registry)
    (h : m ∉ r) : m ∈ (mustRegister r (m :: ms)).1 := by
  simp only [mustRegister, registerSeries, if_neg h]
  exact mustRegister_mono ms (r ++ [m]) m (by simp)

theorem mustRegister_subset (ns : List String) (r : Registry) (n : String)
    (h : n ∈ (mustRegister r ns).1) : n ∈ r ∨ n ∈ ns := by
  induction ns generalizing r with
  | nil =>
    simp [mustRegister] at h
    exact Or.inl h
  | cons m ms ih =>
    by_cases hm : m ∈ r
    · simp [mustRegister, registerSeries, hm] at h
      exact Or.inl h
    · simp only [mustRegister, registerSeries, if_neg hm] at h
      rcases ih (r ++ [m]) h with h' | h'
      · rcases List.mem_append.1 h' with h'' | h''
        · exact Or.inl h''
        · simp at h''
          exact Or.inr (by simp [h''])
      · exact Or.inr (by simp [h'])

/-! Recorder events for the isolation claim. -/

/-- One event operation of `cmdCollector`: one of the nine `Increment*` calls,
`UpdateTotalDuration`, or `UpdateRunDuration` (the factory call and the no-op
`Reset` are not event operations). -/
inductive RecOp where
  | inc (K : CounterKind)
  | updateTotal (d : Int)
  | updateRun (d : Int)
  deriving DecidableEq, Repr

/-- Effect of one recorder event for the recorder bound to command name `a`. -/
def recStep (a : String) : RecOp → PrometheusCollector → PrometheusCollector
  | .inc K, st => incCounter K a st
  | .updateTotal d, st => UpdateTotalDuration a d st
  | .updateRun d, st => UpdateRunDuration a d st

/-- The counter kind an event targets, if it targets a counter. -/
def RecOp.counterTarget : RecOp → Option CounterKind
  | .inc K => some K
  | _ => none

/-- Whether an event targets the total-duration gauge. -/
def RecOp.targetsGauge : RecOp → Bool
  | .updateTotal _ => true
  | _ => false

/-- Whether an event targets the run-duration histogram. -/
def RecOp.targetsHist : RecOp → Bool
  | .updateRun _ => true
  | _ => false

/-! The claims. -/

/-- C1: the claim says `NewPrometheusCollector` creates all 11 series and
registers every one of them with the target registry. The code creates 11
series, but both `MustRegister` argument lists contain only 10 collectors —
`hm.successes` is missing from both. On a fresh registry construction completes
without a conflict, exactly 10 series end up registered, and
`hystrix_go_successes`, although created, is not among them. -/
theorem C1_successes_not_registered :
    createdSeriesNames.length = 11 ∧
    (NewPrometheusCollector [] none).1.2 = none ∧
    (NewPrometheusCollector [] none).1.1.length = 10 ∧
    fq "successes" ∈ createdSeriesNames ∧
    fq "successes" ∉ (NewPrometheusCollector [] none).1.1 := by
  decide

/-- C2 counterexample: create a recorder for "a", set the total-duration gauge
to 5 seconds, then call the factory again for "a": the gauge is reset to 0
(by the unconditional `Set(0.0)` in `initCounters`), not left at 5, refuting
the claim that repeated factory calls leave the gauge value unchanged. -/
theorem C2_counterexample :
    gaugeValue (UpdateTotalDuration "a" 5000000000
      (Collector "a" (newCollectorState none))) "a" = some 5 ∧
    gaugeValue (Collector "a" (UpdateTotalDuration "a" 5000000000
      (Collector "a" (newCollectorState none)))) "a" = some 0 := by
  constructor
  · rw [gaugeValue_updateTotal_self]
    norm_num [durationSeconds]
  · rw [gaugeValue_Collector_self]

/-- C2 (amended): a repeated factory call for an already-seen command leaves
every accumulated counter value unchanged (`Add(0.0)` adds nothing), but it
unconditionally sets the `total_duration_seconds` gauge for that command back to
0 (`Set(0.0)` runs on every call, not only on first creation). -/
theorem C2_repeat_collector (st : PrometheusCollector) (c : String) :
    (∀ K c' v, counterValue st K c' = some v →
      counterValue (Collector c st) K c' = some v) ∧
    gaugeValue (Collector c st) c = some 0 := by
  constructor
  · intro K c' v h
    by_cases hc : c' = c
    · subst hc
      rw [counterValue_Collector_self, h]
      rfl
    · rw [counterValue_Collector_ne _ _ _ _ hc, h]
  · exact gaugeValue_Collector_self c st

/-- C2 witness: concrete instance of the amended claim at the counterexample
state: the attempts counter for "a" stays at 0 across the repeated factory
call, and the gauge reads 0 afterwards. -/
theorem C2_witness :
    counterValue (Collector "a" (UpdateTotalDuration "a" 5000000000
      (Collector "a" (newCollectorState none)))) CounterKind.attempts "a" = some 0 ∧
    gaugeValue (Collector "a" (UpdateTotalDuration "a" 5000000000
      (Collector "a" (newCollectorState none)))) "a" = some 0 := by
  have h := C2_repeat_collector
    (UpdateTotalDuration "a" 5000000000 (Collector "a" (newCollectorState none))) "a"
  refine ⟨h.1 CounterKind.attempts "a" 0 ?_, h.2⟩
  rw [counterValue_updateTotal]
  exact counterValue_Collector_fresh none "a" CounterKind.attempts

/-- C3 counterexample: after the factory call for "a" on a fresh MetricSet, the
run_duration_seconds histogram has no accumulator for label "a": `initCounters`
touches the nine counters and the gauge but never the histogram, so the claim
that all 11 series have a visible accumulator after the factory call is false. -/
theorem C3_counterexample :
    histChild (Collector "a" (newCollectorState none)) "a" = none := rfl

/-- C3 (amended): after the factory call for `c` on a fresh MetricSet, each of
the nine counters and the gauge has an accumulator for label `c` at value 0,
but the histogram has no accumulator for `c` until the first
`UpdateRunDuration` call (and, per C1, the successes accumulator — though
present in the MetricSet — is never registered, so it does not reach registry
exports). -/
theorem C3_zero_visibility (bs : Option (List ℚ)) (c : String) :
    (∀ K, counterValue (Collector c (newCollectorState bs)) K c = some 0) ∧
    gaugeValue (Collector c (newCollectorState bs)) c = some 0 ∧
    histChild (Collector c (newCollectorState bs)) c = none :=
  ⟨fun K => counterValue_Collector_fresh bs c K,
   gaugeValue_Collector_self c (newCollectorState bs), rfl⟩

/-- C4 counterexample: with `hystrix_go_run_duration_seconds` already present in
the registry, construction panics on the collision, yet afterwards
`hystrix_go_attempts` is registered (so "none are left registered" fails) while
`hystrix_go_successes` is not (so "all 11 end up registered" fails):
construction partially succeeds, refuting the all-or-nothing claim. -/
theorem C4_counterexample :
    (NewPrometheusCollector [fq "run_duration_seconds"] none).1.2 ≠ none ∧
    fq "attempts" ∈ (NewPrometheusCollector [fq "run_duration_seconds"] none).1.1 ∧
    fq "successes" ∉ (NewPrometheusCollector [fq "run_duration_seconds"] none).1.1 := by
  decide

/-- C4 (amended): when any of the ten series names actually passed to
registration collides with an already-registered series, construction panics
(`MustRegister`), surfacing the conflict synchronously; but registration is
sequential with no rollback: `hystrix_go_attempts`, first in the argument list,
stays registered whenever it was free, and `hystrix_go_successes` is never
registered because it is not in the argument list. -/
theorem C4_partial_registration (r : Registry)
    (hconf : ∃ n ∈ registeredSeriesNames, n ∈ r)
    (hatt : fq "attempts" ∉ r)
    (hsucc : fq "successes" ∉ r) :
    (NewPrometheusCollector r none).1.2 ≠ none ∧
    fq "attempts" ∈ (NewPrometheusCollector r none).1.1 ∧
    fq "successes" ∉ (NewPrometheusCollector r none).1.1 := by
  refine ⟨mustRegister_panics _ _ hconf, ?_, ?_⟩
  · exact mustRegister_registers_head _ _ _ hatt
  · intro hmem
    rcases mustRegister_subset _ _ _ hmem with h' | h'
    · exact hsucc h'
    · revert h'
      decide

/-- C4 witness: the amended claim at a concrete registry that already holds
`hystrix_go_total_duration_seconds`. -/
theorem C4_witness :
    (NewPrometheusCollector [fq "total_duration_seconds"] none).1.2 ≠ none ∧
    fq "attempts" ∈ (NewPrometheusCollector [fq "total_duration_seconds"] none).1.1 ∧
    fq "successes" ∉ (NewPrometheusCollector [fq "total_duration_seconds"] none).1.1 :=
  C4_partial_registration [fq "total_duration_seconds"] (by decide) (by decide) (by decide)

/-- C5 counterexample: the factory accepts the empty command name: `Collector`
performs no validation, there is no `InvalidCommandName` error (the method has
no error channel at all), and the call simply creates accumulators for the
empty label value, refuting the claim that an empty name is rejected or
guarded against. -/
theorem C5_counterexample :
    counterValue (Collector "" (newCollectorState none)) CounterKind.attempts "" = some 0 ∧
    gaugeValue (Collector "" (newCollectorState none)) "" = some 0 :=
  ⟨counterValue_Collector_fresh none "" CounterKind.attempts,
   gaugeValue_Collector_self "" (newCollectorState none)⟩

/-- C5 (amended): `Collector` has no precondition on the command name: for every
state it unconditionally runs `initCounters`, also for the empty string, which
receives accumulators for the empty label value like any other name; no error
is raised or can be raised. -/
theorem C5_no_empty_name_guard (st : PrometheusCollector) :
    Collector "" st = initCounters "" st ∧
    (∀ K, counterValue (Collector "" st) K "" ≠ none) ∧
    gaugeValue (Collector "" st) "" ≠ none := by
  refine ⟨rfl, fun K => ?_, ?_⟩
  · rw [counterValue_Collector_self]
    simp
  · rw [gaugeValue_Collector_self]
    simp

/-- C6: counter exactness: starting from the factory call for `c` on a fresh
MetricSet, after any trace of calls (factory calls, increments, duration
updates, resets, for any command names), the counter of kind `K` for label `c`
equals exactly the number of increment operations for `(K, c)` in the trace —
interleaved operations on other command names or other counter kinds never
affect it, and each increment adds exactly 1. -/
theorem C6_counter_monotonicity (bs : Option (List ℚ)) (c : String) (K : CounterKind)
    (tr : List MEvent) :
    counterValue (run (Collector c (newCollectorState bs)) tr) K c =
      some ((countIncs K c tr : ℚ)) := by
  have h0 := counterValue_Collector_fresh bs c K
  simpa using counterValue_run tr _ K c 0 h0

/-- C7: gauge overwrite: after `UpdateTotalDuration(d1)` then
`UpdateTotalDuration(d2)` for the same command, the gauge holds exactly `d2`
in seconds — `Set` overwrites, it does not accumulate. -/
theorem C7_gauge_overwrite (st : PrometheusCollector) (c : String) (d1 d2 : Int) :
    gaugeValue (UpdateTotalDuration c d2 (UpdateTotalDuration c d1 st)) c =
      some (durationSeconds d2) :=
  gaugeValue_updateTotal_self c d2 _

/-- C8: histogram accumulation: from any state whose histogram children match
the configured buckets, after observing durations `v1..vm` for command `c` the
histogram count for `c` grows by exactly `m`, its sum by exactly `Σ vi`
(exact rational arithmetic, hence within any floating-point tolerance), and
each bucket by the number of observations whose value lands in that bucket. -/
theorem C8_histogram_accumulation (st : PrometheusCollector) (c : String)
    (ds : List Int) (hWF : histWF st) :
    histCount (runObserves c ds st) c = histCount st c + ds.length ∧
    histSum (runObserves c ds st) c = histSum st c + (ds.map durationSeconds).sum ∧
    ∀ i, bucketCountAt (runObserves c ds st) c i =
      bucketCountAt st c i +
        ds.countP (fun d => decide (bucketIndex st.buckets (durationSeconds d) = some i)) :=
  runObserves_spec c ds st hWF

/-- C8 witness: observing 0.25 s and 0.75 s for "a" after its factory call
yields histogram count 2 and sum 1 for "a". -/
theorem C8_witness :
    histCount (runObserves "a" [250000000, 750000000]
      (Collector "a" (newCollectorState none))) "a" = 2 ∧
    histSum (runObserves "a" [250000000, 750000000]
      (Collector "a" (newCollectorState none))) "a" = 1 := by
  have hWF : histWF (Collector "a" (newCollectorState none)) := by
    intro p hp
    have hrd : (Collector "a" (newCollectorState none)).runDuration = [] := rfl
    rw [hrd] at hp
    simp at hp
  have h := C8_histogram_accumulation (Collector "a" (newCollectorState none)) "a"
    [250000000, 750000000] hWF
  have hcount : histCount (Collector "a" (newCollectorState none)) "a" = 0 := rfl
  have hsum : histSum (Collector "a" (newCollectorState none)) "a" = 0 := rfl
  refine ⟨?_, ?_⟩
  · rw [h.1, hcount]
    rfl
  · rw [h.2.1, hsum]
    norm_num [durationSeconds]

/-- C9: label and series isolation: each recorder event for command `a` mutates
only its single target accumulator: every counter `(K, b)` other than its
target is unchanged, every gauge child other than its target is unchanged, and
every histogram child other than its target is unchanged — in particular
nothing for any command name `b ≠ a`. -/
theorem C9_label_isolation (e : RecOp) (a : String) (st : PrometheusCollector) :
    (∀ K b, ¬(b = a ∧ e.counterTarget = some K) →
      counterValue (recStep a e st) K b = counterValue st K b) ∧
    (∀ b, ¬(b = a ∧ e.targetsGauge = true) →
      gaugeValue (recStep a e st) b = gaugeValue st b) ∧
    (∀ b, ¬(b = a ∧ e.targetsHist = true) →
      histChild (recStep a e st) b = histChild st b) := by
  cases e with
  | inc K' =>
    refine ⟨?_, ?_, ?_⟩
    · intro K b hne
      simp only [recStep, counterValue, counterVec_incCounter]
      by_cases hK : K = K'
      · subst hK
        have hb : b ≠ a := fun hba => hne ⟨hba, rfl⟩
        rw [if_pos rfl, counterInc, counterAdd, lookupChild_applyChild_ne _ _ _ _ _ hb]
      · rw [if_neg hK]
    · intro b _
      simp [recStep, gaugeValue, totalDuration_incCounter]
    · intro b _
      simp [recStep, histChild, runDuration_incCounter]
  | updateTotal d =>
    refine ⟨?_, ?_, ?_⟩
    · intro K b _
      exact counterValue_updateTotal a b d st K
    · intro b hne
      have hb : b ≠ a := fun hba => hne ⟨hba, rfl⟩
      exact gaugeValue_updateTotal_ne _ _ _ _ hb
    · intro b _
      rfl
  | updateRun d =>
    refine ⟨?_, ?_, ?_⟩
    · intro K b _
      exact counterValue_updateRun a b d st K
    · intro b _
      rfl
    · intro b hne
      have hb : b ≠ a := fun hba => hne ⟨hba, rfl⟩
      exact histChild_updateRun_ne _ _ _ _ hb

/-- C9 witness: an attempts increment for "a" leaves the errors counter, the
gauge, and the histogram for "b" untouched. -/
theorem C9_witness :
    counterValue (recStep "a" (RecOp.inc CounterKind.attempts) (newCollectorState none))
      CounterKind.errors "b" = counterValue (newCollectorState none) CounterKind.errors "b" ∧
    gaugeValue (recStep "a" (RecOp.inc CounterKind.attempts) (newCollectorState none)) "b" =
      gaugeValue (newCollectorState none) "b" ∧
    histChild (recStep "a" (RecOp.inc CounterKind.attempts) (newCollectorState none)) "b" =
      histChild (newCollectorState none) "b" := by
  have h := C9_label_isolation (RecOp.inc CounterKind.attempts) "a" (newCollectorState none)
  exact ⟨h.1 CounterKind.errors "b" (by decide), h.2.1 "b" (by decide),
    h.2.2 "b" (by decide)⟩

/-- C10: `Reset` is a no-op: its body is empty, so it returns the state
unchanged and every counter, the gauge, and every histogram accumulator are
exactly preserved; per-command history is never purged. -/
theorem C10_reset_noop (st : PrometheusCollector) :
    Reset st = st ∧
    (∀ K c, counterValue (Reset st) K c = counterValue st K c) ∧
    (∀ c, gaugeValue (Reset st) c = gaugeValue st c) ∧
    (∀ c, histChild (Reset st) c = histChild st c) :=
  ⟨rfl, fun _ _ => rfl, fun _ => rfl, fun _ => rfl⟩

end Hystrix
